import Mathlib

/-!
Verification development for the `crypto-daily-processor` binary of
soulmachine/crypto-cli-tools.

The Rust program is shallowly embedded below.  Conventions:

* Rust `u64` values are modelled as `Nat`, `i64` values as `Int` (no
  computation in the program overflows these types on its reachable inputs;
  where a Rust `as` cast between them could wrap, an explicit modelling
  function is used).
* Rust `f64` arithmetic (the stage-1 error-ratio test and the 90th-percentile
  index) is modelled by exact rational / natural arithmetic; the doc comment
  of each such definition records the modelling step.
* A Rust `panic!` / `.unwrap()` failure is modelled by `Except.error`;
  functions that can panic return `Except String _`.
* External black-box collaborators (serde json parsing, `extract_symbol`,
  `parse_l2`, `parse_trade`, `crypto_pair::normalize_pair`, the 64-bit
  `DefaultHasher`, the `pixz` binary) are threaded in as environment records,
  exactly at the call signatures the source uses.
* File sinks are modelled by the sequence of lines appended to them; the
  shared `DashMap`/`DashSet` state of stage 1 is modelled by association
  lists / membership lists and a per-line step function, so any interleaving
  of the concurrent split workers is a sequence of such steps.
-/

/-! ## Market and message types (from the `crypto-market-type` /
`crypto-msg-type` crates, as used by the source) -/

inductive MarketType where
  | spot
  | linearFuture
  | inverseFuture
  | linearSwap
  | inverseSwap
  | europeanOption
  | quantoFuture
  | quantoSwap
  | move
  | bvol
  | unknown
  deriving DecidableEq

inductive MessageType where
  | trade
  | l2Event
  | l2Snapshot
  | l2TopK
  | bbo
  | ticker
  | candlestick
  | fundingRate
  | other
  deriving DecidableEq

/-- Source lines 67-72: the four blocked market types. -/
def is_blocked_market (market_type : MarketType) : Bool :=
  market_type = MarketType.quantoFuture
    || market_type = MarketType.quantoSwap
    || market_type = MarketType.move
    || market_type = MarketType.bvol

/-! ## `get_day` (source lines 51-55)

`NaiveDateTime::from_timestamp(ts, 0)` floors the Unix second count to a day
count (`div_euclid 86400`); formatting with `%Y-%m-%d` renders the proleptic
Gregorian civil date.  The civil-date computation below is the standard
days-to-civil algorithm that chrono implements. -/

def padNat2 (n : Nat) : String :=
  if n < 10 then "0" ++ toString n else toString n

def padNat4 (n : Nat) : String :=
  if n < 10 then "000" ++ toString n
  else if n < 100 then "00" ++ toString n
  else if n < 1000 then "0" ++ toString n
  else toString n

def padYear (y : Int) : String :=
  if y < 0 then "-" ++ padNat4 (-y).toNat else padNat4 y.toNat

/-- Convert a count of days since 1970-01-01 to a proleptic Gregorian
civil date (year, month, day). -/
def civil_from_days (z0 : Int) : Int × Nat × Nat :=
  let z : Int := z0 + 719468
  let era : Int := z.fdiv 146097
  let doe : Nat := (z - era * 146097).toNat
  let yoe : Nat := (doe - doe / 1460 + doe / 36524 - doe / 146096) / 365
  let y : Int := (yoe : Int) + era * 400
  let doy : Nat := doe - (365 * yoe + yoe / 4 - yoe / 100)
  let mp : Nat := (5 * doy + 2) / 153
  let d : Nat := doy - (153 * mp + 2) / 5 + 1
  let m : Nat := if mp < 10 then mp + 3 else mp - 9
  (if m ≤ 2 then y + 1 else y, m, d)

/-- Source lines 51-55. -/
def get_day (unix_timestamp : Int) : String :=
  let days := unix_timestamp.fdiv 86400
  let c := civil_from_days days
  padYear c.1 ++ "-" ++ padNat2 c.2.1 ++ "-" ++ padNat2 c.2.2

/-! ## Data model of stage 1 (source lines 37-49 and 57-65)

`Message` is the CaptureRecord input line shape.  `ParsedMsg` models the
records produced by the external parsers: the source only inspects their
`timestamp` field (an `i64` count of milliseconds) and serializes them back
to one JSON line; the serialized form is carried opaquely. -/

structure Message where
  exchange : String
  market_type : MarketType
  msg_type : MessageType
  /-- Unix timestamp in milliseconds, `u64` in the source. -/
  received_at : Nat
  json : String
  deriving DecidableEq

structure ParsedMsg where
  /-- Unix timestamp in milliseconds, `i64` in the source. -/
  timestamp : Int
  /-- The record's remaining fields, observed only through
  `serde_json::to_string`. -/
  serialized : String
  deriving DecidableEq

/-- One `Output` value (source lines 57-65): the pair of gzip sinks of one
symbol, modelled by the sequences of lines appended to each. -/
structure Output where
  raw : List String
  parsed : List ParsedMsg
  deriving DecidableEq

/-- The external black boxes called by `split_file`, at the source's call
signatures: serde deserialization of a line into `Message`,
`extract_symbol(exchange, market_type, json)`,
`parse_l2(exchange, market_type, json, received_at)`,
`parse_trade(exchange, market_type, json)`,
`crypto_pair::normalize_pair(symbol, exchange)`, and the 64-bit
`DefaultHasher` over the payload string. -/
structure SplitEnv where
  parseMessage : String → Option Message
  extract_symbol : String → MarketType → String → Option String
  parse_l2 : String → MarketType → String → Option Int → Except Unit (List ParsedMsg)
  parse_trade : String → MarketType → String → Except Unit (List ParsedMsg)
  normalize_pair : String → String → Option String
  hashJson : String → Nat

/-- The run parameters a split worker reads from the input file name
(source lines 100-106): the exchange token, the parsed market type and the
day `D`. -/
structure SplitCfg where
  exchange : String
  market_type : MarketType
  day : String

/-- The shared mutable state of stage 1 — the dedup set (`visited`,
a `DashSet<u64>`) and the symbol router (`split_files`,
a `DashMap<String, Output>`) — together with the per-worker
`(error_lines, total_lines)` tallies. -/
structure SplitState where
  visited : List Nat
  split_files : List (String × Output)
  error_lines : Int
  total_lines : Int
  deriving DecidableEq

def lookupSink : List (String × Output) → String → Option Output
  | [], _ => none
  | e :: es, s => if e.1 = s then some e.2 else lookupSink es s

def appendRawTo : List (String × Output) → String → String → List (String × Output)
  | [], _, _ => []
  | e :: es, s, line =>
    if e.1 = s then (e.1, { e.2 with raw := e.2.raw ++ [line] }) :: es
    else e :: appendRawTo es s line

def appendParsedTo : List (String × Output) → String → ParsedMsg → List (String × Output)
  | [], _, _ => []
  | e :: es, s, m =>
    if e.1 = s then (e.1, { e.2 with parsed := e.2.parsed ++ [m] }) :: es
    else e :: appendParsedTo es s m

def appendRaw (st : SplitState) (s : String) (line : String) : SplitState :=
  { st with split_files := appendRawTo st.split_files s line }

def appendParsed (st : SplitState) (s : String) (m : ParsedMsg) : SplitState :=
  { st with split_files := appendParsedTo st.split_files s m }

/-- The raw-bucket content of symbol `s` (empty if the sink does not exist). -/
def rawLines (st : SplitState) (s : String) : List String :=
  match lookupSink st.split_files s with
  | none => []
  | some o => o.raw

/-- The parsed-bucket content of symbol `s` (empty if the sink does not
exist). -/
def parsedRecords (st : SplitState) (s : String) : List ParsedMsg :=
  match lookupSink st.split_files s with
  | none => []
  | some o => o.parsed

/-- Panic message of `Option::unwrap` on `None`. -/
def unwrap_none_msg : String := "called Option::unwrap() on a None value"

/-- Panic message of the catch-all `msg_type` arm (source line 237). -/
def unknown_msg_type_msg : String := "Unknown msg_type"

/-- The `received_at as i64` cast at source line 206 (`u64` to `i64`,
wrapping). -/
def i64_of_u64 (n : Nat) : Int :=
  if n % 2 ^ 64 < 2 ^ 63 then ((n % 2 ^ 64 : Nat) : Int)
  else ((n % 2 ^ 64 : Nat) : Int) - 2 ^ 64

/-- Source lines 130-193: on first sight of a symbol, create its raw and
parsed sinks (truncate-on-create) and insert them into the router.  Creating
the parsed sink calls `normalize_pair(symbol, exchange).unwrap()` (source
line 158), which panics when normalization fails. -/
def ensureSink (env : SplitEnv) (cfg : SplitCfg) (st : SplitState)
    (symbol : String) : Except String SplitState :=
  if (lookupSink st.split_files symbol).isNone then
    match env.normalize_pair symbol cfg.exchange with
    | none => Except.error unwrap_none_msg
    | some _pair =>
      Except.ok { st with split_files := (symbol, Output.mk [] []) :: st.split_files }
  else Except.ok st

/-- Source lines 208-216 and 225-234: append each parsed record whose
timestamp (milliseconds, `i64` truncating division by 1000) falls on day `D`
to the symbol's parsed sink. -/
def emitParsed (st : SplitState) (symbol : String) (day : String)
    (messages : List ParsedMsg) : SplitState :=
  messages.foldl
    (fun st message =>
      if get_day (message.timestamp.tdiv 1000) = day then
        appendParsed st symbol message
      else st)
    st

/-- The body of the `for line in buf_reader.lines()` loop of `split_file`
(source lines 113-252).  `lineRead = none` models an `Err` item from the
gzip line reader (source lines 248-251: `error_lines` is incremented but
`total_lines` is not). -/
def split_line (env : SplitEnv) (cfg : SplitCfg) (st : SplitState)
    (lineRead : Option String) : Except String SplitState :=
  match lineRead with
  | none => Except.ok { st with error_lines := st.error_lines + 1 }
  | some line =>
    let st1 := { st with total_lines := st.total_lines + 1 }
    match env.parseMessage line with
    | none => Except.ok { st1 with error_lines := st1.error_lines + 1 }
    | some msg =>
      let hashcode := env.hashJson msg.json
      if hashcode ∈ st1.visited then Except.ok st1
      else
        let st2 := { st1 with visited := hashcode :: st1.visited }
        match env.extract_symbol cfg.exchange cfg.market_type msg.json with
        | none => Except.ok { st2 with error_lines := st2.error_lines + 1 }
        | some symbol =>
          match ensureSink env cfg st2 symbol with
          | Except.error e => Except.error e
          | Except.ok st3 =>
            let st4 :=
              if cfg.day = get_day (Int.ofNat (msg.received_at / 1000)) then
                appendRaw st3 symbol line
              else st3
            match msg.msg_type with
            | MessageType.l2Event =>
              if !is_blocked_market cfg.market_type then
                match env.parse_l2 cfg.exchange msg.market_type msg.json
                    (some (i64_of_u64 msg.received_at)) with
                | Except.ok messages => Except.ok (emitParsed st4 symbol cfg.day messages)
                | Except.error _ => Except.ok st4
              else Except.ok st4
            | MessageType.trade =>
              match env.parse_trade msg.exchange msg.market_type msg.json with
              | Except.ok messages => Except.ok (emitParsed st4 symbol cfg.day messages)
              | Except.error _ => Except.ok st4
            | _ => Except.error unknown_msg_type_msg

/-- `split_file` (source lines 89-254): fold the loop body over the file's
line reads.  An `Except.error` result models a worker panic: the remaining
lines of the file are not processed. -/
def split_file (env : SplitEnv) (cfg : SplitCfg) (st : SplitState) :
    List (Option String) → Except String SplitState
  | [] => Except.ok st
  | lineRead :: rest =>
    match split_line env cfg st lineRead with
    | Except.error e => Except.error e
    | Except.ok st' => split_file env cfg st' rest

/-! ## Stage 2: the sort worker (source lines 266-379)

Each stage-2 line is deserialized as `HashMap<String, serde_json::Value>`.
`JValue`/`JNumber` model `serde_json::Value`: `as_i64` is `Some` exactly when
the number is stored as an integer representable in `i64` (floats, strings
and out-of-range unsigned values give `None`). -/

inductive JNumber where
  /-- A non-negative integer, stored as `u64`. -/
  | uintVal (n : Nat)
  /-- A negative integer, stored as `i64`. -/
  | intVal (n : Int)
  /-- A finite float (`serde_json` stores it as `f64`; `as_i64` is always
  `None` for floats, so the payload is carried opaquely as a
  mantissa/exponent pair). -/
  | floatVal (mantissa : Int) (exponent : Int)
  deriving DecidableEq

inductive JValue where
  | null
  | boolVal (b : Bool)
  | numVal (n : JNumber)
  | strVal (s : String)
  | arrVal (elems : List JValue)
  | objVal (fields : List (String × JValue))

/-- `serde_json::Value::as_i64`. -/
def JValue.as_i64 : JValue → Option Int
  | JValue.numVal (JNumber.uintVal n) => if (n : Int) ≤ 2 ^ 63 - 1 then some (n : Int) else none
  | JValue.numVal (JNumber.intVal n) => some n
  | _ => none

/-- `HashMap::contains_key`. -/
def containsKey (fields : List (String × JValue)) (k : String) : Bool :=
  fields.any (fun e => e.1 = k)

/-- `HashMap::get` (serde maps have unique keys). -/
def getKey (fields : List (String × JValue)) (k : String) : Option JValue :=
  match fields.find? (fun e => e.1 = k) with
  | none => none
  | some e => some e.2

/-- The external black boxes of the sort worker: serde deserialization of a
line into a string-keyed map, and whether the `pixz -9` child process exits
successfully. -/
structure SortEnv where
  parseLine : String → Option (List (String × JValue))
  pixzOk : Bool

/-- Panic message when `pixz` exits non-zero (source line 369). -/
def pixz_failed_msg : String := "pixz failed"

/-- The accumulator of the sort worker's read loop: the `(error, total)`
tallies and the in-memory `(timestamp, line)` vector. -/
structure SortScan where
  error_lines : Int
  total_lines : Int
  lines : List (Int × String)
  deriving DecidableEq

/-- The body of the read loop of `sort_file` (source lines 291-314): locate
the timestamp preferring key `received_at` over `timestamp`; when neither is
present the line counts as an error, but when a key is present and its value
is not an `i64` the `as_i64().unwrap()` at source lines 297/299 panics. -/
def locate_timestamp (msg : List (String × JValue)) : Option Int :=
  if containsKey msg "received_at" then
    match getKey msg "received_at" with
    | none => none
    | some v => v.as_i64
  else
    match getKey msg "timestamp" with
    | none => none
    | some v => v.as_i64

def sort_line (env : SortEnv) (st : SortScan) (lineRead : Option String) :
    Except String SortScan :=
  match lineRead with
  | none => Except.ok { st with error_lines := st.error_lines + 1 }
  | some line =>
    let st1 := { st with total_lines := st.total_lines + 1 }
    match env.parseLine line with
    | none => Except.ok { st1 with error_lines := st1.error_lines + 1 }
    | some msg =>
      if containsKey msg "received_at" || containsKey msg "timestamp" then
        match locate_timestamp msg with
        | none => Except.error unwrap_none_msg
        | some timestamp =>
          Except.ok { st1 with lines := st1.lines ++ [(timestamp, line)] }
      else Except.ok { st1 with error_lines := st1.error_lines + 1 }

/-- `sort_by_key` comparison: ascending by the embedded timestamp.  Rust's
`sort_by_key` is a stable sort, modelled by `List.mergeSort`. -/
def tsLe (a b : Int × String) : Bool := a.1 ≤ b.1

/-- The estimated peak working set of a bucket file (source lines 281-284
and 568-571): five times its on-disk size. -/
def estimated_memory_usage (filesize : Nat) : Int := ((filesize * 5 : Nat) : Int)

/-- The observable outcome of one non-panicking `sort_file` call:
the returned `(error_lines, total_lines)`, the committed final bucket
content (`none` when the bucket was aborted), whether the input `.json.gz`
was deleted, and the amount added back to the admission counter. -/
structure SortResult where
  error_lines : Int
  total_lines : Int
  output : Option (List String)
  input_deleted : Bool
  released : Int
  deriving DecidableEq

/-- The read loop of `sort_file` (source lines 291-314) over the file's
line reads. -/
def sort_scan (env : SortEnv) (st : SortScan) :
    List (Option String) → Except String SortScan
  | [] => Except.ok st
  | lineRead :: rest =>
    match sort_line env st lineRead with
    | Except.error e => Except.error e
    | Except.ok st' => sort_scan env st' rest

/-- `sort_file` (source lines 266-379).  The input file's content is given
as its sequence of line reads and its on-disk size.  When any line was
malformed the bucket is aborted: no output, input left in place.  Otherwise
the lines are stable-sorted ascending by timestamp and emitted (in mode B a
failing `pixz` invocation panics); then the input is deleted.  On every
non-panic path the reservation (5 x file size) is added back to the
admission counter. -/
def sort_file (env : SortEnv) (lineReads : List (Option String))
    (filesize : Nat) (use_pixz : Bool) : Except String SortResult :=
  match sort_scan env (SortScan.mk 0 0 []) lineReads with
  | Except.error e => Except.error e
  | Except.ok scan =>
    if scan.error_lines = 0 then
      let sorted := scan.lines.mergeSort tsLe
      if use_pixz && !env.pixzOk then Except.error pixz_failed_msg
      else
        Except.ok
          (SortResult.mk scan.error_lines scan.total_lines
            (some (sorted.map (fun p => p.2))) true (estimated_memory_usage filesize))
    else
      Except.ok
        (SortResult.mk scan.error_lines scan.total_lines none false
          (estimated_memory_usage filesize))

/-! ## The pipeline driver (source lines 384-638) and `main`
(source lines 640-694) -/

/-- The stage-1 error-ratio gate (source lines 494-507):
`(error_lines as f64) / (total_lines as f64) > 0.01`.  The `f64` quotient is
modelled by the exact rational quotient; the special case `total_lines = 0`
records the IEEE behaviour of the source (`err/0` is `+inf > 0.01` for
positive `err`, and `0/0` is NaN, which compares false). -/
def errorRatioExceeded (error_lines total_lines : Int) : Bool :=
  if total_lines = 0 then decide (0 < error_lines)
  else decide ((error_lines : ℚ) / (total_lines : ℚ) > 1 / 100)

/-- The aggregate tallies collected from the stage-1 workers. -/
structure Stage1Summary where
  error_lines : Int
  total_lines : Int

/-- The driver's control flow after the stage-1 pool join (source lines
494-511): if the error ratio exceeds 1 percent the run fails and stage 2 is
not attempted.  Returns `(run succeeded, stage 2 was attempted)`;
`stage2` is the rest of `process_files_of_day`. -/
def run_after_split (s : Stage1Summary) (stage2 : Unit → Bool) : Bool × Bool :=
  if errorRatioExceeded s.error_lines s.total_lines then (false, false)
  else (stage2 (), true)

/-- `main` (source lines 683-693): exit code 1 when `process_files_of_day`
returns false, 0 otherwise. -/
def main_exit_code (ok : Bool) : Nat := if ok then 0 else 1

/-- The stage-2 input selection (source lines 537-547): when the market type
is blocked, every parsed bucket file found by the glob is deleted and only
the raw bucket files are sorted.  Returns
`(files submitted to sort workers, files deleted)`. -/
def stage2_paths (market_type : MarketType) (paths_raw paths_parsed : List String) :
    List String × List String :=
  if is_blocked_market market_type then (paths_raw, paths_parsed)
  else (paths_raw ++ paths_parsed, [])

/-- Source line 558: `((paths.len() as f64) * 0.9) as usize`.  The `f64`
product and truncating cast are modelled by exact natural arithmetic
(`(0.9 * n).floor = 9 * n / 10`, exact for every list length below `2 ^ 52`). -/
def percentile_90 (num_paths : Nat) : Nat := num_paths * 9 / 10

/-- The stage-2 scheduling plan (source lines 556-605): the bucket files are
stable-sorted ascending by size, and the file at position `index` of that
order is submitted with `use_pixz = pixz_exists && index >= percentile_90`.
Each entry of the result is `(file size, use_pixz)` in submission order. -/
def stage2_plan (pixz_exists : Bool) (sizes : List Nat) : List (Nat × Bool) :=
  let sorted := sizes.mergeSort (fun a b => a ≤ b)
  sorted.enum.map
    (fun p => (p.2, pixz_exists && decide (percentile_90 sorted.length ≤ p.1)))

/-! ## The memory admission counter (source lines 560-581 and 377)

`available_memory` is an `AtomicI64`, initialized at stage-2 start to the
host's available memory.  Only the driver thread subtracts: it polls until
`available >= n` and then atomically subtracts `n`, while sort workers only
add; so the guarded step below is a faithful model of any interleaving
(between the driver's successful poll and its subtraction the counter can
only grow). -/

inductive AdmissionEvent where
  /-- The driver reserves `n` bytes for a sort worker: it blocks until
  `available >= n`, then subtracts `n` (source lines 566-581). -/
  | reserveEv (n : Int)
  /-- A sort worker adds its reservation back (source line 377). -/
  | releaseEv (n : Int)

def admission_step (available : Int) : AdmissionEvent → Option Int
  | AdmissionEvent.reserveEv n =>
    if 0 ≤ n ∧ n ≤ available then some (available - n) else none
  | AdmissionEvent.releaseEv n =>
    if 0 ≤ n then some (available + n) else none

def admission_run (available : Int) : List AdmissionEvent → Option Int
  | [] => some available
  | e :: es =>
    match admission_step available e with
    | none => none
    | some a => admission_run a es

/-! ## Helper lemmas about the sort worker -/

lemma sort_file_ok_elim (env : SortEnv) (lineReads : List (Option String))
    (filesize : Nat) (use_pixz : Bool) (r : SortResult)
    (h : sort_file env lineReads filesize use_pixz = Except.ok r) :
    ∃ scan, sort_scan env (SortScan.mk 0 0 []) lineReads = Except.ok scan ∧
      r.error_lines = scan.error_lines ∧ r.total_lines = scan.total_lines ∧
      r.released = estimated_memory_usage filesize ∧
      (if scan.error_lines = 0 then
        r.output = some ((scan.lines.mergeSort tsLe).map (fun p => p.2)) ∧
          r.input_deleted = true
      else r.output = none ∧ r.input_deleted = false) := by
  unfold sort_file at h
  split at h
  · exact absurd h (by simp)
  · rename_i scan heq
    refine ⟨scan, heq, ?_⟩
    split at h
    · rename_i hz
      split at h
      · exact absurd h (by simp)
      · injection h with h
        subst h
        simp [hz]
    · rename_i hz
      injection h with h
      subst h
      simp [hz]

lemma sort_file_released (env : SortEnv) (lineReads : List (Option String))
    (filesize : Nat) (use_pixz : Bool) (r : SortResult)
    (h : sort_file env lineReads filesize use_pixz = Except.ok r) :
    r.released = estimated_memory_usage filesize := by
  obtain ⟨scan, -, -, -, hrel, -⟩ := sort_file_ok_elim env lineReads filesize use_pixz r h
  exact hrel

lemma sort_line_ok_cases (env : SortEnv) (st : SortScan) (lineRead : Option String)
    (st' : SortScan) (h : sort_line env st lineRead = Except.ok st') :
    (st'.error_lines = st.error_lines + 1 ∧ st'.lines = st.lines) ∨
      (st'.error_lines = st.error_lines ∧
        ∃ text ts, lineRead = some text ∧ st'.lines = st.lines ++ [(ts, text)]) := by
  unfold sort_line at h
  split at h
  · injection h with h; subst h; left; exact ⟨rfl, rfl⟩
  · rename_i text
    split at h
    · injection h with h; subst h; left; exact ⟨rfl, rfl⟩
    · rename_i msg hmsg
      split at h
      · split at h
        · exact absurd h (by simp)
        · rename_i ts hts
          injection h with h; subst h
          exact Or.inr ⟨rfl, text, ts, rfl, rfl⟩
      · injection h with h; subst h; left; exact ⟨rfl, rfl⟩

lemma sort_scan_err_mono (env : SortEnv) (lineReads : List (Option String)) :
    ∀ st scan : SortScan, sort_scan env st lineReads = Except.ok scan →
      st.error_lines ≤ scan.error_lines := by
  induction lineReads with
  | nil => intro st scan h; injection h with h; subst h; omega
  | cons lr rest ih =>
    intro st scan h
    unfold sort_scan at h
    split at h
    · exact absurd h (by simp)
    · rename_i st1 hstep
      have h2 := ih st1 scan h
      rcases sort_line_ok_cases env st lr st1 hstep with ⟨he, -⟩ | ⟨he, -⟩ <;> omega

lemma sort_scan_zero_err (env : SortEnv) (lineReads : List (Option String)) :
    ∀ st scan : SortScan, sort_scan env st lineReads = Except.ok scan →
      scan.error_lines = st.error_lines →
      scan.lines.map (fun p => p.2) =
        st.lines.map (fun p => p.2) ++ lineReads.filterMap id := by
  induction lineReads with
  | nil =>
    intro st scan h _
    injection h with h; subst h; simp
  | cons lr rest ih =>
    intro st scan h hz
    unfold sort_scan at h
    split at h
    · exact absurd h (by simp)
    · rename_i st1 hstep
      have hmono := sort_scan_err_mono env rest st1 scan h
      rcases sort_line_ok_cases env st lr st1 hstep with ⟨he, -⟩ | ⟨he, text, ts, hlr, hl⟩
      · omega
      · subst hlr
        have hrec := ih st1 scan h (by omega)
        rw [hrec, hl]
        simp

/-! ## Concrete instances used by witnesses and counterexamples -/

/-- A sort environment in which every line is malformed (serde fails). -/
def demoSortEnvBad : SortEnv := SortEnv.mk (fun _ => none) true

/-- A parsed line map whose `timestamp` value is a JSON string, so
`as_i64` is `None`. -/
def demoBadFields : List (String × JValue) :=
  [("timestamp", JValue.strVal "not a number")]

/-- A sort environment in which every line carries a `timestamp` key whose
value is not representable as `i64`. -/
def demoSortEnvStrTs : SortEnv := SortEnv.mk (fun _ => some demoBadFields) true

/-- A sort environment mapping the lines named `"a"` and `"b"` to maps with
integer timestamps 5 and 3. -/
def demoSortEnvTwo : SortEnv :=
  SortEnv.mk
    (fun s =>
      if s = "a" then some [("timestamp", JValue.numVal (JNumber.uintVal 5))]
      else if s = "b" then some [("timestamp", JValue.numVal (JNumber.uintVal 3))]
      else none)
    true

/-! ## Claim C2 -/

/-- C2: for every bucket processed by a sort worker, if any line is
malformed (`error_lines > 0`) the bucket is aborted — the input `.json.gz`
is left in place and no output content is committed — and on every
non-panicking return path the memory reservation is added back in full. -/
theorem c2_abort_keeps_input_and_releases (env : SortEnv)
    (lineReads : List (Option String)) (filesize : Nat) (use_pixz : Bool)
    (r : SortResult) (h : sort_file env lineReads filesize use_pixz = Except.ok r) :
    (0 < r.error_lines → r.output = none ∧ r.input_deleted = false) ∧
      r.released = estimated_memory_usage filesize := by
  obtain ⟨scan, -, herr, -, hrel, hout⟩ :=
    sort_file_ok_elim env lineReads filesize use_pixz r h
  refine ⟨?_, hrel⟩
  intro hpos
  by_cases hz : scan.error_lines = 0
  · omega
  · rw [if_neg hz] at hout
    exact hout

/-- Witness for C2 at a concrete input: one unparseable line; the worker
reports one error line, commits no output, leaves the input in place and
releases the 5 x 3 byte reservation. -/
theorem c2_abort_keeps_input_and_releases_witness :
    sort_file demoSortEnvBad [some "junk"] 3 false =
      Except.ok (SortResult.mk 1 1 none false 15) ∧
      ((0 < (SortResult.mk 1 1 none false 15).error_lines →
          (SortResult.mk 1 1 none false 15).output = none ∧
            (SortResult.mk 1 1 none false 15).input_deleted = false) ∧
        (SortResult.mk 1 1 none false 15).released = estimated_memory_usage 3) :=
  ⟨by rfl,
    c2_abort_keeps_input_and_releases demoSortEnvBad [some "junk"] 3 false
      (SortResult.mk 1 1 none false 15) (by rfl)⟩

/-! ## Claim C10 -/

/-- C10: a stage-2 input line whose `timestamp` (or `received_at`) key is
present but whose JSON value is not representable as a signed 64-bit
integer makes `sort_file` panic (`as_i64().unwrap()`, source lines
297-299) instead of warn-logging the line and counting it as an error
line. -/
theorem c10_sort_timestamp_panic :
    containsKey demoBadFields "timestamp" = true ∧
      JValue.as_i64 (JValue.strVal "not a number") = none ∧
      sort_file demoSortEnvStrTs [some "line1"] 1 false =
        Except.error unwrap_none_msg :=
  ⟨by decide, by decide, by rfl⟩

/-! ## Claim C8 -/

/-- C8: the admission counter never goes negative.  Along every trace of
guarded reserve steps (the driver subtracts `n` only after observing
`available >= n`, and nothing but worker releases can change the counter in
between) and release steps, a counter that starts non-negative stays
non-negative; the driver's reservations `5 x file size` are non-negative;
and a sort worker that returns adds back exactly the reservation amount on
every return path. -/
theorem c8_admission_invariant :
    (∀ (init : Int) (evs : List AdmissionEvent) (a : Int),
      0 ≤ init → admission_run init evs = some a → 0 ≤ a) ∧
      (∀ filesize : Nat, 0 ≤ estimated_memory_usage filesize) ∧
      (∀ (env : SortEnv) (lineReads : List (Option String)) (filesize : Nat)
        (use_pixz : Bool) (r : SortResult),
        sort_file env lineReads filesize use_pixz = Except.ok r →
        r.released = estimated_memory_usage filesize) := by
  refine ⟨?_, ?_, ?_⟩
  · intro init evs
    induction evs generalizing init with
    | nil =>
      intro a h0 h
      injection h with h
      omega
    | cons e rest ih =>
      intro a h0 h
      unfold admission_run at h
      split at h
      · exact absurd h (by simp)
      · rename_i a1 hstep
        have h1 : 0 ≤ a1 := by
          cases e <;> simp only [admission_step] at hstep <;> split at hstep <;>
            first
            | (injection hstep with hstep; omega)
            | exact absurd hstep (by simp)
        exact ih a1 a h1 h
  · intro filesize
    unfold estimated_memory_usage
    positivity
  · intro env lineReads filesize use_pixz r h
    exact sort_file_released env lineReads filesize use_pixz r h

/-- Witness for C8 at concrete inputs: a trace that reserves 10 of 12
bytes, releases them and reserves 5 ends non-negative; the reservation for a
3-byte file is non-negative; the worker of claim C2's witness releases
exactly its reservation. -/
theorem c8_admission_invariant_witness :
    (0 ≤ (12 : Int) → admission_run 12
        [AdmissionEvent.reserveEv 10, AdmissionEvent.releaseEv 10,
          AdmissionEvent.reserveEv 5] = some 7 → 0 ≤ (7 : Int)) ∧
      0 ≤ estimated_memory_usage 3 ∧
      (sort_file demoSortEnvBad [some "junk"] 3 false =
          Except.ok (SortResult.mk 1 1 none false 15) →
        (SortResult.mk 1 1 none false 15).released = estimated_memory_usage 3) :=
  ⟨fun h0 h => c8_admission_invariant.1 12 _ 7 h0 h,
    c8_admission_invariant.2.1 3,
    fun h =>
      c8_admission_invariant.2.2 demoSortEnvBad [some "junk"] 3 false
        (SortResult.mk 1 1 none false 15) h⟩

/-! ## Claim C6 -/

/-- C6: the run fails with stage 2 unattempted exactly when the stage-1
aggregate error ratio `error_lines / total_lines` is strictly greater than
1 percent (the `f64` quotient modelled exactly over `ℚ`; the first conjunct
states the equivalence for every positive line total), a failed run maps to
exit code 1, and in particular 2 error lines out of 100 total lines fail
the run. -/
theorem c6_error_ratio_gate :
    (∀ error_lines total_lines : Int, 0 < total_lines →
      (errorRatioExceeded error_lines total_lines = true ↔
        (error_lines : ℚ) / (total_lines : ℚ) > 1 / 100)) ∧
      (∀ (s : Stage1Summary) (stage2 : Unit → Bool),
        run_after_split s stage2 = (false, false) ↔
          errorRatioExceeded s.error_lines s.total_lines = true) ∧
      (∀ ok : Bool, main_exit_code ok = 1 ↔ ok = false) ∧
      errorRatioExceeded 2 100 = true := by
  refine ⟨?_, ?_, ?_, by norm_num [errorRatioExceeded]⟩
  · intro error_lines total_lines hpos
    unfold errorRatioExceeded
    rw [if_neg (by omega)]
    exact decide_eq_true_iff
  · intro s stage2
    unfold run_after_split
    by_cases hx : errorRatioExceeded s.error_lines s.total_lines = true
    · simp [hx]
    · simp only [Bool.not_eq_true] at hx
      simp [hx]
  · intro ok
    cases ok <;> simp [main_exit_code]

/-- Witness for C6 at concrete inputs: with 2 error lines out of 100 the
gate trips (2/100 > 1/100), the run fails with stage 2 unattempted, and the
process exits 1. -/
theorem c6_error_ratio_gate_witness :
    (0 < (100 : Int) →
      (errorRatioExceeded 2 100 = true ↔ ((2 : Int) : ℚ) / ((100 : Int) : ℚ) > 1 / 100)) ∧
      (run_after_split (Stage1Summary.mk 2 100) (fun _ => true) = (false, false) ↔
        errorRatioExceeded (Stage1Summary.mk 2 100).error_lines
          (Stage1Summary.mk 2 100).total_lines = true) ∧
      (main_exit_code false = 1 ↔ false = false) ∧
      errorRatioExceeded 2 100 = true :=
  ⟨fun _ => c6_error_ratio_gate.1 2 100 (by decide),
    c6_error_ratio_gate.2.1 (Stage1Summary.mk 2 100) (fun _ => true),
    c6_error_ratio_gate.2.2.1 false,
    c6_error_ratio_gate.2.2.2⟩

/-! ## Claim C7 -/

/-- C7: stage-2 codec-mode selection.  The submission order is the input
sizes stable-sorted ascending; the file at position `index` of that order
runs in mode B (external `pixz`) exactly when a `pixz` binary exists at
`/usr/bin/pixz` and `index` is at or above the 90th-percentile cutoff
`(0.9 * number of files).floor`; otherwise it runs in mode A (in-process
XZ level 9). -/
theorem c7_pixz_mode_selection (pixz_exists : Bool) (sizes : List Nat) :
    ((stage2_plan pixz_exists sizes).map (fun p => p.1)).Perm sizes ∧
      List.Pairwise (fun a b : Nat => a ≤ b)
        ((stage2_plan pixz_exists sizes).map (fun p => p.1)) ∧
      ∀ (i : Nat) (sz : Nat) (b : Bool),
        (stage2_plan pixz_exists sizes).get? i = some (sz, b) →
        (b = true ↔ (pixz_exists = true ∧ sizes.length * 9 / 10 ≤ i)) := by
  have hfst : (stage2_plan pixz_exists sizes).map (fun p => p.1) =
      sizes.mergeSort (fun a b => a ≤ b) := by
    unfold stage2_plan
    rw [List.map_map]
    have : ((fun p : Nat × Bool => p.1) ∘
        fun p : Nat × Nat =>
          (p.2, pixz_exists &&
            decide (percentile_90 (sizes.mergeSort (fun a b => a ≤ b)).length ≤ p.1))) =
        Prod.snd := rfl
    rw [this, List.enum_map_snd]
  refine ⟨?_, ?_, ?_⟩
  · rw [hfst]
    exact List.mergeSort_perm sizes _
  · rw [hfst]
    have hs := @List.sorted_mergeSort Nat (fun a b : Nat => decide (a ≤ b))
      (fun a b c hab hbc => by
        simp only [decide_eq_true_iff] at *
        omega)
      (fun a b => by
        rcases Nat.le_total a b with h | h <;> simp [h])
      sizes
    exact hs.imp (fun h => by simpa using h)
  · intro i sz b hget
    unfold stage2_plan at hget
    rw [List.get?_map] at hget
    cases henum : (sizes.mergeSort (fun a b => a ≤ b)).enum.get? i with
    | none => rw [henum] at hget; exact absurd hget (by simp)
    | some p =>
      rw [henum] at hget
      rw [List.get?_enum] at henum
      cases hsz : (sizes.mergeSort (fun a b => a ≤ b)).get? i with
      | none => rw [hsz] at henum; exact absurd henum (by simp)
      | some v =>
        rw [hsz] at henum
        simp only [Option.map_some'] at henum hget
        injection henum with henum
        subst henum
        injection hget with hget
        have hb : b = (pixz_exists &&
            decide (percentile_90 (sizes.mergeSort (fun a b => a ≤ b)).length ≤ i)) := by
          exact (congrArg Prod.snd hget).symm
        have hlen : (sizes.mergeSort (fun a b => a ≤ b)).length = sizes.length :=
          (List.mergeSort_perm sizes _).length_eq
        subst hb
        rw [hlen]
        unfold percentile_90
        constructor
        · intro hand
          rcases Bool.and_eq_true _ _ |>.mp hand with ⟨hp, hd⟩
          exact ⟨hp, by simpa using hd⟩
        · rintro ⟨hp, hd⟩
          subst hp
          simp [hd]

/-- Witness for C7 at concrete inputs: three files of sizes 3, 1, 2 are
submitted in ascending order 1, 2, 3; the 90th-percentile cutoff is index
2, and with `pixz` present exactly the file at index 2 (size 3) runs in
mode B. -/
theorem c7_pixz_mode_selection_witness :
    (((stage2_plan true [3, 1, 2]).map (fun p => p.1)).Perm [3, 1, 2] ∧
        List.Pairwise (fun a b : Nat => a ≤ b)
          ((stage2_plan true [3, 1, 2]).map (fun p => p.1)) ∧
        ∀ (i : Nat) (sz : Nat) (b : Bool),
          (stage2_plan true [3, 1, 2]).get? i = some (sz, b) →
          (b = true ↔ (true = true ∧ [3, 1, 2].length * 9 / 10 ≤ i))) ∧
      (stage2_plan true [3, 1, 2]).get? 2 = some (3, true) :=
  ⟨c7_pixz_mode_selection true [3, 1, 2],
    by simp [stage2_plan, List.mergeSort, percentile_90]⟩

/-! ## Claim C3 -/

lemma tsLe_trans (a b c : Int × String) :
    tsLe a b = true → tsLe b c = true → tsLe a c = true := by
  simp only [tsLe, decide_eq_true_iff]
  omega

lemma tsLe_total (a b : Int × String) : (tsLe a b || tsLe b a) = true := by
  simp only [tsLe, Bool.or_eq_true, decide_eq_true_iff]
  omega

/-- C3: a sort worker that completes a bucket with zero malformed lines
deletes the pre-sort input, collects exactly the bucket's input lines, and
commits as output those lines reordered by a stable ascending sort on the
embedded timestamp: the committed pair sequence is a permutation of the
collected one, its timestamps are monotonically non-decreasing, and lines
with equal timestamps keep their input order. -/
theorem c3_success_sorted_output (env : SortEnv)
    (lineReads : List (Option String)) (filesize : Nat) (use_pixz : Bool)
    (r : SortResult) (scan : SortScan)
    (hscan : sort_scan env (SortScan.mk 0 0 []) lineReads = Except.ok scan)
    (h : sort_file env lineReads filesize use_pixz = Except.ok r)
    (hz : r.error_lines = 0) :
    r.input_deleted = true ∧
      scan.lines.map (fun p => p.2) = lineReads.filterMap id ∧
      ∃ sorted : List (Int × String),
        r.output = some (sorted.map (fun p => p.2)) ∧
          sorted.Perm scan.lines ∧
          List.Pairwise (fun a b : Int × String => a.1 ≤ b.1) sorted ∧
          ∀ t : Int, sorted.filter (fun p => decide (p.1 = t)) =
            scan.lines.filter (fun p => decide (p.1 = t)) := by
  obtain ⟨scan2, hscan2, herr, -, -, hout⟩ :=
    sort_file_ok_elim env lineReads filesize use_pixz r h
  rw [hscan] at hscan2
  injection hscan2 with hscan2
  subst hscan2
  have hz2 : scan.error_lines = 0 := by omega
  rw [if_pos hz2] at hout
  refine ⟨hout.2, ?_, scan.lines.mergeSort tsLe, hout.1, List.mergeSort_perm _ _, ?_, ?_⟩
  · simpa using sort_scan_zero_err env lineReads (SortScan.mk 0 0 []) scan hscan hz2
  · have hs := List.sorted_mergeSort tsLe_trans tsLe_total scan.lines
    exact hs.imp (fun hab => by simpa [tsLe] using hab)
  · intro t
    have hsub : (scan.lines.filter (fun p => decide (p.1 = t))).Sublist
        (scan.lines.mergeSort tsLe) := by
      refine List.mergeSort_stable tsLe_trans tsLe_total ?_ (List.filter_sublist _)
      have hall : ∀ p ∈ scan.lines.filter (fun p : Int × String => decide (p.1 = t)),
          p.1 = t := by
        intro p hp
        simpa using (List.mem_filter.mp hp).2
      refine List.pairwise_of_forall_mem_list ?_
      intro a ha b hb
      simp only [tsLe, decide_eq_true_iff]
      rw [hall a ha, hall b hb]
    have hperm : ((scan.lines.mergeSort tsLe).filter
        (fun p => decide (p.1 = t))).Perm
          (scan.lines.filter (fun p => decide (p.1 = t))) :=
      (List.mergeSort_perm scan.lines tsLe).filter _
    have hsub2 : (scan.lines.filter (fun p => decide (p.1 = t))).Sublist
        ((scan.lines.mergeSort tsLe).filter (fun p => decide (p.1 = t))) := by
      have := hsub.filter (fun p : Int × String => decide (p.1 = t))
      rwa [List.filter_filter, (by
        funext p
        simp : (fun p : Int × String =>
          (decide (p.1 = t) && decide (p.1 = t))) = fun p => decide (p.1 = t))] at this
    exact (hsub2.eq_of_length hperm.length_eq.symm).symm

/-- Witness for C3 at a concrete input: two well-formed lines with
timestamps 5 and 3 are re-emitted as the timestamp-sorted sequence
`["b", "a"]` and the input is deleted. -/
theorem c3_success_sorted_output_witness :
    sort_scan demoSortEnvTwo (SortScan.mk 0 0 []) [some "a", some "b"] =
        Except.ok (SortScan.mk 0 2 [(5, "a"), (3, "b")]) ∧
      sort_file demoSortEnvTwo [some "a", some "b"] 2 false =
        Except.ok (SortResult.mk 0 2 (some ["b", "a"]) true 10) ∧
      ((SortResult.mk 0 2 (some ["b", "a"]) true 10).input_deleted = true ∧
        (SortScan.mk 0 2 [(5, "a"), (3, "b")]).lines.map (fun p => p.2) =
          [some "a", some "b"].filterMap id ∧
        ∃ sorted : List (Int × String),
          (SortResult.mk 0 2 (some ["b", "a"]) true 10).output =
              some (sorted.map (fun p => p.2)) ∧
            sorted.Perm (SortScan.mk 0 2 [(5, "a"), (3, "b")]).lines ∧
            List.Pairwise (fun a b : Int × String => a.1 ≤ b.1) sorted ∧
            ∀ t : Int, sorted.filter (fun p => decide (p.1 = t)) =
              (SortScan.mk 0 2 [(5, "a"), (3, "b")]).lines.filter
                (fun p => decide (p.1 = t))) := by
  have h1 : sort_scan demoSortEnvTwo (SortScan.mk 0 0 []) [some "a", some "b"] =
      Except.ok (SortScan.mk 0 2 [(5, "a"), (3, "b")]) := by rfl
  have h2 : sort_file demoSortEnvTwo [some "a", some "b"] 2 false =
      Except.ok (SortResult.mk 0 2 (some ["b", "a"]) true 10) := by
    simp [sort_file, sort_scan, sort_line, demoSortEnvTwo, locate_timestamp,
      containsKey, getKey, JValue.as_i64, List.mergeSort, List.merge, tsLe,
      estimated_memory_usage]
  exact ⟨h1, h2,
    c3_success_sorted_output demoSortEnvTwo [some "a", some "b"] 2 false
      (SortResult.mk 0 2 (some ["b", "a"]) true 10)
      (SortScan.mk 0 2 [(5, "a"), (3, "b")]) h1 h2 (by rfl)⟩

/-! ## Helper lemmas about the split worker's router state -/

lemma lookupSink_appendRawTo (files : List (String × Output)) (s : String)
    (line : String) (t : String) :
    lookupSink (appendRawTo files s line) t =
      if t = s then
        (lookupSink files s).map (fun o => { o with raw := o.raw ++ [line] })
      else lookupSink files t := by
  induction files with
  | nil => simp [appendRawTo, lookupSink]
  | cons e es ih =>
    by_cases h1 : e.1 = s
    · by_cases h2 : t = s
      · subst h2
        simp [appendRawTo, lookupSink, h1]
      · simp only [appendRawTo, if_pos h1, lookupSink, if_neg h2]
        rw [if_neg (fun hc : e.1 = t => h2 (hc.symm.trans h1)),
          if_neg (fun hc : e.1 = t => h2 (hc.symm.trans h1))]
    · by_cases h2 : t = s
      · subst h2
        simp [appendRawTo, lookupSink, h1, ih, if_neg (fun hc : e.1 = t => h1 hc)]
      · simp only [appendRawTo, if_neg h1, lookupSink, ih, if_neg h2]

lemma lookupSink_appendParsedTo (files : List (String × Output)) (s : String)
    (m : ParsedMsg) (t : String) :
    lookupSink (appendParsedTo files s m) t =
      if t = s then
        (lookupSink files s).map (fun o => { o with parsed := o.parsed ++ [m] })
      else lookupSink files t := by
  induction files with
  | nil => simp [appendParsedTo, lookupSink]
  | cons e es ih =>
    by_cases h1 : e.1 = s
    · by_cases h2 : t = s
      · subst h2
        simp [appendParsedTo, lookupSink, h1]
      · simp only [appendParsedTo, if_pos h1, lookupSink, if_neg h2]
        rw [if_neg (fun hc : e.1 = t => h2 (hc.symm.trans h1)),
          if_neg (fun hc : e.1 = t => h2 (hc.symm.trans h1))]
    · by_cases h2 : t = s
      · subst h2
        simp [appendParsedTo, lookupSink, h1, ih, if_neg (fun hc : e.1 = t => h1 hc)]
      · simp only [appendParsedTo, if_neg h1, lookupSink, ih, if_neg h2]

lemma rawLines_appendRaw (st : SplitState) (s : String) (line : String)
    (t : String) (hpres : (lookupSink st.split_files s).isSome = true) :
    rawLines (appendRaw st s line) t =
      rawLines st t ++ (if t = s then [line] else []) := by
  obtain ⟨o, ho⟩ := Option.isSome_iff_exists.mp hpres
  unfold rawLines appendRaw
  simp only [lookupSink_appendRawTo]
  by_cases h2 : t = s
  · subst h2
    rw [if_pos rfl, if_pos rfl, ho]
    simp
  · rw [if_neg h2, if_neg h2]
    simp

lemma parsedRecords_appendRaw (st : SplitState) (s : String) (line : String)
    (t : String) :
    parsedRecords (appendRaw st s line) t = parsedRecords st t := by
  unfold parsedRecords appendRaw
  simp only [lookupSink_appendRawTo]
  by_cases h2 : t = s
  · subst h2
    rw [if_pos rfl]
    cases lookupSink st.split_files t <;> simp
  · rw [if_neg h2]

lemma rawLines_appendParsed (st : SplitState) (s : String) (m : ParsedMsg)
    (t : String) :
    rawLines (appendParsed st s m) t = rawLines st t := by
  unfold rawLines appendParsed
  simp only [lookupSink_appendParsedTo]
  by_cases h2 : t = s
  · subst h2
    rw [if_pos rfl]
    cases lookupSink st.split_files t <;> simp
  · rw [if_neg h2]

lemma parsedRecords_appendParsed (st : SplitState) (s : String) (m : ParsedMsg)
    (t : String) (hpres : (lookupSink st.split_files s).isSome = true) :
    parsedRecords (appendParsed st s m) t =
      parsedRecords st t ++ (if t = s then [m] else []) := by
  obtain ⟨o, ho⟩ := Option.isSome_iff_exists.mp hpres
  unfold parsedRecords appendParsed
  simp only [lookupSink_appendParsedTo]
  by_cases h2 : t = s
  · subst h2
    rw [if_pos rfl, if_pos rfl, ho]
    simp
  · rw [if_neg h2, if_neg h2]
    simp

lemma isSome_appendRaw (st : SplitState) (s : String) (line : String)
    (u : String) :
    (lookupSink (appendRaw st s line).split_files u).isSome =
      (lookupSink st.split_files u).isSome := by
  unfold appendRaw
  simp only [lookupSink_appendRawTo]
  by_cases h2 : u = s
  · subst h2
    rw [if_pos rfl]
    cases lookupSink st.split_files u <;> simp
  · rw [if_neg h2]

lemma isSome_appendParsed (st : SplitState) (s : String) (m : ParsedMsg)
    (u : String) :
    (lookupSink (appendParsed st s m).split_files u).isSome =
      (lookupSink st.split_files u).isSome := by
  unfold appendParsed
  simp only [lookupSink_appendParsedTo]
  by_cases h2 : u = s
  · subst h2
    rw [if_pos rfl]
    cases lookupSink st.split_files u <;> simp
  · rw [if_neg h2]

lemma emitParsed_visited (st : SplitState) (sym : String) (day : String)
    (ms : List ParsedMsg) : (emitParsed st sym day ms).visited = st.visited := by
  induction ms generalizing st with
  | nil => rfl
  | cons m rest ih =>
    unfold emitParsed
    simp only [List.foldl_cons]
    by_cases hm : get_day (m.timestamp.tdiv 1000) = day <;>
      simp only [hm, if_pos, if_neg, ite_true, ite_false] <;>
      exact ih _

lemma emitParsed_error_lines (st : SplitState) (sym : String) (day : String)
    (ms : List ParsedMsg) :
    (emitParsed st sym day ms).error_lines = st.error_lines := by
  induction ms generalizing st with
  | nil => rfl
  | cons m rest ih =>
    unfold emitParsed
    simp only [List.foldl_cons]
    by_cases hm : get_day (m.timestamp.tdiv 1000) = day <;>
      simp only [hm, ite_true, ite_false] <;>
      exact ih _

lemma emitParsed_total_lines (st : SplitState) (sym : String) (day : String)
    (ms : List ParsedMsg) :
    (emitParsed st sym day ms).total_lines = st.total_lines := by
  induction ms generalizing st with
  | nil => rfl
  | cons m rest ih =>
    unfold emitParsed
    simp only [List.foldl_cons]
    by_cases hm : get_day (m.timestamp.tdiv 1000) = day <;>
      simp only [hm, ite_true, ite_false] <;>
      exact ih _

lemma emitParsed_rawLines (st : SplitState) (sym : String) (day : String)
    (ms : List ParsedMsg) (t : String) :
    rawLines (emitParsed st sym day ms) t = rawLines st t := by
  induction ms generalizing st with
  | nil => rfl
  | cons m rest ih =>
    unfold emitParsed
    simp only [List.foldl_cons]
    by_cases hm : get_day (m.timestamp.tdiv 1000) = day <;>
      simp only [hm, ite_true, ite_false]
    · rw [show (List.foldl _ _ rest : SplitState) = emitParsed (appendParsed st sym m) sym day rest from rfl,
        ih (appendParsed st sym m), rawLines_appendParsed]
    · exact ih st

lemma emitParsed_parsedRecords (sym : String) (day : String)
    (ms : List ParsedMsg) :
    ∀ (st : SplitState) (t : String),
      (lookupSink st.split_files sym).isSome = true →
      parsedRecords (emitParsed st sym day ms) t =
        parsedRecords st t ++
          (if t = sym then
            ms.filter (fun m => decide (get_day (m.timestamp.tdiv 1000) = day))
          else []) := by
  induction ms with
  | nil =>
    intro st t _
    simp [emitParsed]
  | cons m rest ih =>
    intro st t hpres
    unfold emitParsed
    simp only [List.foldl_cons]
    by_cases hm : get_day (m.timestamp.tdiv 1000) = day
    · simp only [hm, ite_true]
      rw [show (List.foldl _ _ rest : SplitState) =
          emitParsed (appendParsed st sym m) sym day rest from rfl,
        ih (appendParsed st sym m) t (by rw [isSome_appendParsed]; exact hpres),
        parsedRecords_appendParsed st sym m t hpres]
      by_cases h2 : t = sym
      · simp [h2, List.filter_cons, hm]
      · simp [h2]
    · simp only [hm, ite_false]
      rw [show (List.foldl _ _ rest : SplitState) = emitParsed st sym day rest from rfl,
        ih st t hpres]
      by_cases h2 : t = sym
      · simp [h2, List.filter_cons, hm]
      · simp [h2]

lemma ensureSink_ok (env : SplitEnv) (cfg : SplitCfg) (st : SplitState)
    (sym : String) (st' : SplitState)
    (h : ensureSink env cfg st sym = Except.ok st') :
    st'.visited = st.visited ∧ st'.error_lines = st.error_lines ∧
      st'.total_lines = st.total_lines ∧
      (∀ t, rawLines st' t = rawLines st t) ∧
      (∀ t, parsedRecords st' t = parsedRecords st t) ∧
      (lookupSink st'.split_files sym).isSome = true := by
  unfold ensureSink at h
  split at h
  · rename_i hnone
    split at h
    · exact absurd h (by simp)
    · injection h with h
      subst h
      have habs : lookupSink st.split_files sym = none :=
        Option.isNone_iff_eq_none.mp (by simpa using hnone)
      refine ⟨rfl, rfl, rfl, ?_, ?_, ?_⟩
      · intro t
        unfold rawLines
        simp only [lookupSink]
        by_cases h2 : sym = t
        · subst h2
          rw [if_pos rfl, habs]
        · rw [if_neg h2]
      · intro t
        unfold parsedRecords
        simp only [lookupSink]
        by_cases h2 : sym = t
        · subst h2
          rw [if_pos rfl, habs]
        · rw [if_neg h2]
      · simp [lookupSink]
  · rename_i hsome
    injection h with h
    subst h
    refine ⟨rfl, rfl, rfl, fun _ => rfl, fun _ => rfl, ?_⟩
    simpa [Option.isNone_iff_eq_none, Option.isSome_iff_ne_none] using hsome

/-- Full case analysis of one non-panicking `split_line` step on a line that
deserializes to `msg`: either the payload hash was already in the dedup set
and nothing but `total_lines` changes; or the symbol extraction failed and
only the tallies change; or the line went down the emission path, where the
raw sink of its symbol gains the original line exactly when `received_at`
falls on day `D`, and the parsed sink gains exactly the day-`D` records of
some parser output (which is empty for an `L2Event` under a blocked market
type). -/
lemma split_line_cases (env : SplitEnv) (cfg : SplitCfg) (st : SplitState)
    (line : String) (msg : Message) (st' : SplitState)
    (hparse : env.parseMessage line = some msg)
    (h : split_line env cfg st (some line) = Except.ok st') :
    (env.hashJson msg.json ∈ st.visited ∧ st'.visited = st.visited ∧
      st'.split_files = st.split_files ∧ st'.error_lines = st.error_lines ∧
      st'.total_lines = st.total_lines + 1) ∨
    (env.hashJson msg.json ∉ st.visited ∧
      env.extract_symbol cfg.exchange cfg.market_type msg.json = none ∧
      st'.visited = env.hashJson msg.json :: st.visited ∧
      st'.split_files = st.split_files ∧
      st'.error_lines = st.error_lines + 1 ∧
      st'.total_lines = st.total_lines + 1) ∨
    (∃ (symbol : String) (messages : List ParsedMsg),
      env.hashJson msg.json ∉ st.visited ∧
      env.extract_symbol cfg.exchange cfg.market_type msg.json = some symbol ∧
      st'.visited = env.hashJson msg.json :: st.visited ∧
      st'.error_lines = st.error_lines ∧
      st'.total_lines = st.total_lines + 1 ∧
      (msg.msg_type = MessageType.l2Event ∨ msg.msg_type = MessageType.trade) ∧
      (is_blocked_market cfg.market_type = true →
        msg.msg_type = MessageType.l2Event → messages = []) ∧
      (∀ t, rawLines st' t = rawLines st t ++
        (if t = symbol ∧ cfg.day = get_day (Int.ofNat (msg.received_at / 1000))
          then [line] else [])) ∧
      (∀ t, parsedRecords st' t = parsedRecords st t ++
        (if t = symbol then
          messages.filter
            (fun m => decide (get_day (m.timestamp.tdiv 1000) = cfg.day))
        else []))) := by
  unfold split_line at h
  simp only [hparse] at h
  by_cases hdup : env.hashJson msg.json ∈ st.visited
  · rw [if_pos hdup] at h
    injection h with h
    subst h
    exact Or.inl ⟨hdup, rfl, rfl, rfl, rfl⟩
  · rw [if_neg hdup] at h
    cases hex : env.extract_symbol cfg.exchange cfg.market_type msg.json with
    | none =>
      simp only [hex] at h
      injection h with h
      subst h
      exact Or.inr (Or.inl ⟨hdup, rfl, rfl, rfl, rfl, rfl⟩)
    | some symbol =>
      simp only [hex] at h
      refine Or.inr (Or.inr ?_)
      cases hsink : ensureSink env cfg
          { st with visited := env.hashJson msg.json :: st.visited,
                    total_lines := st.total_lines + 1 } symbol with
      | error e => rw [hsink] at h; exact absurd h (by simp)
      | ok st3 =>
        rw [hsink] at h
        obtain ⟨hv3, he3, ht3, hraw3, hparsed3, hpres3⟩ :=
          ensureSink_ok env cfg _ symbol st3 hsink
        set st4 := if cfg.day = get_day (Int.ofNat (msg.received_at / 1000))
          then appendRaw st3 symbol line else st3 with hst4
        have hpres4 : (lookupSink st4.split_files symbol).isSome = true := by
          rw [hst4]
          by_cases hday : cfg.day = get_day (Int.ofNat (msg.received_at / 1000))
        
          · rw [if_pos hday, isSome_appendRaw]
            exact hpres3
          · rw [if_neg hday]
            exact hpres3
        have hv4 : st4.visited = env.hashJson msg.json :: st.visited := by
          rw [hst4]
          by_cases hday : cfg.day = get_day (Int.ofNat (msg.received_at / 1000))
          · rw [if_pos hday]
            exact hv3
          · rw [if_neg hday]
            exact hv3
        have he4 : st4.error_lines = st.error_lines := by
          rw [hst4]
          by_cases hday : cfg.day = get_day (Int.ofNat (msg.received_at / 1000))
          · rw [if_pos hday]
            exact he3
          · rw [if_neg hday]
            exact he3
        have ht4 : st4.total_lines = st.total_lines + 1 := by
          rw [hst4]
          by_cases hday : cfg.day = get_day (Int.ofNat (msg.received_at / 1000))
          · rw [if_pos hday]
            exact ht3
          · rw [if_neg hday]
            exact ht3
        have hraw4 : ∀ t, rawLines st4 t = rawLines st t ++
            (if t = symbol ∧ cfg.day = get_day (Int.ofNat (msg.received_at / 1000))
              then [line] else []) := by
          intro t
          rw [hst4]
          by_cases hday : cfg.day = get_day (Int.ofNat (msg.received_at / 1000))
          · rw [if_pos hday, rawLines_appendRaw st3 symbol line t hpres3, hraw3 t]
            by_cases h2 : t = symbol
            · rw [if_pos h2, if_pos ⟨h2, hday⟩]
              rfl
            · rw [if_neg h2, if_neg (fun hc => h2 hc.1)]
              rfl
          · rw [if_neg hday, hraw3 t, if_neg (fun hc => hday hc.2)]
            simp only [List.append_nil]
            rfl
        have hparsed4 : ∀ t, parsedRecords st4 t = parsedRecords st t := by
          intro t
          rw [hst4]
          by_cases hday : cfg.day = get_day (Int.ofNat (msg.received_at / 1000))
          · rw [if_pos hday, parsedRecords_appendRaw, hparsed3 t]
            rfl
          · rw [if_neg hday, hparsed3 t]
            rfl
        have main : ∀ (messages : List ParsedMsg),
            st' = emitParsed st4 symbol cfg.day messages →
            st'.visited = env.hashJson msg.json :: st.visited ∧
              st'.error_lines = st.error_lines ∧
              st'.total_lines = st.total_lines + 1 ∧
              (∀ t, rawLines st' t = rawLines st t ++
                (if t = symbol ∧
                    cfg.day = get_day (Int.ofNat (msg.received_at / 1000))
                  then [line] else [])) ∧
              (∀ t, parsedRecords st' t = parsedRecords st t ++
                (if t = symbol then
                  messages.filter
                    (fun m => decide (get_day (m.timestamp.tdiv 1000) = cfg.day))
                else [])) := by
          intro messages hse
          subst hse
          refine ⟨by rw [emitParsed_visited, hv4],
            by rw [emitParsed_error_lines, he4],
            by rw [emitParsed_total_lines, ht4], ?_, ?_⟩
          · intro t
            rw [emitParsed_rawLines, hraw4 t]
          · intro t
            rw [emitParsed_parsedRecords symbol cfg.day messages st4 t hpres4,
              hparsed4 t]
        cases hmt : msg.msg_type with
        | l2Event =>
          rw [hmt] at h
          by_cases hblk : is_blocked_market cfg.market_type = true
          · rw [hblk] at h
            simp only [Bool.not_true, Bool.false_eq_true, if_false] at h
            injection h with h
            have hm := main [] h.symm
            refine ⟨symbol, [], hdup, rfl, hm.1, hm.2.1, hm.2.2.1,
              Or.inl rfl, fun _ _ => rfl, hm.2.2.2.1, hm.2.2.2.2⟩
          · rw [Bool.not_eq_true] at hblk
            rw [hblk] at h
            simp only [Bool.not_false, if_true] at h
            cases hpl : env.parse_l2 cfg.exchange msg.market_type msg.json
                (some (i64_of_u64 msg.received_at)) with
            | error e =>
              rw [hpl] at h
              injection h with h
              have hm := main [] h.symm
              refine ⟨symbol, [], hdup, rfl, hm.1, hm.2.1, hm.2.2.1,
                Or.inl rfl, fun _ _ => rfl, hm.2.2.2.1, hm.2.2.2.2⟩
            | ok messages =>
              rw [hpl] at h
              injection h with h
              have hm := main messages h.symm
              refine ⟨symbol, messages, hdup, rfl, hm.1, hm.2.1, hm.2.2.1,
                Or.inl rfl, ?_, hm.2.2.2.1, hm.2.2.2.2⟩
              intro hb _
              rw [hblk] at hb
              exact absurd hb (by simp)
        | trade =>
          rw [hmt] at h
          cases hpt : env.parse_trade msg.exchange msg.market_type msg.json with
          | error e =>
            rw [hpt] at h
            injection h with h
            have hm := main [] h.symm
            refine ⟨symbol, [], hdup, rfl, hm.1, hm.2.1, hm.2.2.1,
              Or.inr rfl, ?_, hm.2.2.2.1, hm.2.2.2.2⟩
            intro _ hc
            exact absurd hc (by decide)
          | ok messages =>
            rw [hpt] at h
            injection h with h
            have hm := main messages h.symm
            refine ⟨symbol, messages, hdup, rfl, hm.1, hm.2.1, hm.2.2.1,
              Or.inr rfl, ?_, hm.2.2.2.1, hm.2.2.2.2⟩
            intro _ hc
            exact absurd hc (by decide)
        | l2Snapshot => rw [hmt] at h; exact absurd h (by simp)
        | l2TopK => rw [hmt] at h; exact absurd h (by simp)
        | bbo => rw [hmt] at h; exact absurd h (by simp)
        | ticker => rw [hmt] at h; exact absurd h (by simp)
        | candlestick => rw [hmt] at h; exact absurd h (by simp)
        | fundingRate => rw [hmt] at h; exact absurd h (by simp)
        | other => rw [hmt] at h; exact absurd h (by simp)

/-! ## Claim C4 -/

/-- C4: deduplication.  The dedup set only grows across any non-panicking
split-worker step (so an inserted hash stays inserted for the rest of the
run, across all files and workers), and a line whose payload hash is
already in the shared set is dropped silently: the step leaves every sink
and the dedup set unchanged and counts the line neither as an error (the
error tally is unchanged) nor as a success (nothing is emitted). -/
theorem c4_dedup_drops_duplicates :
    (∀ (env : SplitEnv) (cfg : SplitCfg) (st : SplitState)
      (lineRead : Option String) (st' : SplitState),
      split_line env cfg st lineRead = Except.ok st' →
      ∀ hash ∈ st.visited, hash ∈ st'.visited) ∧
      (∀ (env : SplitEnv) (cfg : SplitCfg) (st : SplitState) (line : String)
        (msg : Message) (st' : SplitState),
        env.parseMessage line = some msg →
        env.hashJson msg.json ∈ st.visited →
        split_line env cfg st (some line) = Except.ok st' →
        st'.split_files = st.split_files ∧ st'.error_lines = st.error_lines ∧
          st'.visited = st.visited) := by
  constructor
  · intro env cfg st lineRead st' h hash hmem
    cases lineRead with
    | none =>
      unfold split_line at h
      injection h with h
      subst h
      exact hmem
    | some line =>
      cases hparse : env.parseMessage line with
      | none =>
        unfold split_line at h
        simp only [hparse] at h
        injection h with h
        subst h
        exact hmem
      | some msg =>
        rcases split_line_cases env cfg st line msg st' hparse h with
          ⟨-, hv, -, -, -⟩ | ⟨-, -, hv, -, -, -⟩ | ⟨sym, ms, -, -, hv, -⟩
        · rw [hv]; exact hmem
        · rw [hv]; exact List.mem_cons_of_mem _ hmem
        · rw [hv]; exact List.mem_cons_of_mem _ hmem
  · intro env cfg st line msg st' hparse hmem h
    rcases split_line_cases env cfg st line msg st' hparse h with
      ⟨-, hv, hf, he, -⟩ | ⟨hdup, -⟩ | ⟨sym, ms, hdup, -⟩
    · exact ⟨hf, he, hv⟩
    · exact absurd hmem hdup
    · exact absurd hmem hdup

/-! ## Concrete split-stage instances -/

/-- The day used by the concrete runs below; Unix second 1640995200 is
2022-01-01T00:00:00Z. -/
def demoDay : String := "2022-01-01"

def demoCfgMove : SplitCfg := SplitCfg.mk "bitmex" MarketType.move demoDay

/-- A capture line of a Trade message under the blocked `Move` market. -/
def demoTradeMsg : Message :=
  Message.mk "bitmex" MarketType.move MessageType.trade 1640995200000 "payload0"

/-- A parsed trade whose timestamp falls on 2022-01-01. -/
def demoParsedTrade : ParsedMsg := ParsedMsg.mk 1640995200000 "trade0"

/-- An environment whose external parsers succeed: every line deserializes
to `demoTradeMsg`, the symbol is `XBTUSD`, `parse_trade` emits
`demoParsedTrade`, and `normalize_pair` succeeds. -/
def demoEnvTrade : SplitEnv :=
  SplitEnv.mk (fun _ => some demoTradeMsg) (fun _ _ _ => some "XBTUSD")
    (fun _ _ _ _ => Except.error ()) (fun _ _ _ => Except.ok [demoParsedTrade])
    (fun _ _ => some "BTC/USD") (fun _ => 7)

def emptySplitState : SplitState := SplitState.mk [] [] 0 0

/-! ## Claim C1 -/

/-- C1 (amended): under a blocked market type, an `L2Event` line never
appends a parsed record during stage 1 (the block test at source line 201
guards only the `L2Event` arm — Trade lines can still append parsed
records), and before stage-2 sorting every parsed bucket file found by the
glob is deleted and only the raw files are submitted, so after stage 2 the
parsed output tree contains no bucket files. -/
theorem c1_blocked_market_parsed :
    (∀ (env : SplitEnv) (cfg : SplitCfg) (st : SplitState) (line : String)
      (msg : Message) (st' : SplitState),
      is_blocked_market cfg.market_type = true →
      env.parseMessage line = some msg →
      msg.msg_type = MessageType.l2Event →
      split_line env cfg st (some line) = Except.ok st' →
      ∀ t, parsedRecords st' t = parsedRecords st t) ∧
      (∀ (market_type : MarketType) (paths_raw paths_parsed : List String),
        is_blocked_market market_type = true →
        stage2_paths market_type paths_raw paths_parsed =
          (paths_raw, paths_parsed)) := by
  constructor
  · intro env cfg st line msg st' hblk hparse hl2 h
    rcases split_line_cases env cfg st line msg st' hparse h with
      ⟨-, -, hf, -, -⟩ | ⟨-, -, -, hf, -, -⟩ |
      ⟨sym, ms, -, -, -, -, -, -, hblkimp, -, hparsed⟩
    · intro t
      unfold parsedRecords
      rw [hf]
    · intro t
      unfold parsedRecords
      rw [hf]
    · intro t
      have hms : ms = [] := hblkimp hblk hl2
      subst hms
      rw [hparsed t]
      by_cases h2 : t = sym
      · simp [h2]
      · simp [h2]
  · intro market_type paths_raw paths_parsed hblk
    unfold stage2_paths
    rw [if_pos hblk]

/-- Counterexample to C1 as stated: under the blocked `Move` market type, a
`Trade` capture line whose `parse_trade` output falls on day `D` appends a
parsed record to a parsed bucket during stage 1. -/
theorem c1_blocked_trade_emits_parsed :
    is_blocked_market demoCfgMove.market_type = true ∧
      demoTradeMsg.msg_type = MessageType.trade ∧
      split_line demoEnvTrade demoCfgMove emptySplitState (some "x") =
        Except.ok
          (SplitState.mk [7] [("XBTUSD", Output.mk ["x"] [demoParsedTrade])] 0 1) ∧
      parsedRecords
          (SplitState.mk [7] [("XBTUSD", Output.mk ["x"] [demoParsedTrade])] 0 1)
          "XBTUSD" =
        [demoParsedTrade] :=
  ⟨by decide, by decide, by rfl, by rfl⟩

/-- A capture line of an `L2Event` message under the blocked `Move` market,
in an environment whose `parse_l2` would emit a day-`D` record if it were
called. -/
def demoL2Msg : Message :=
  Message.mk "bitmex" MarketType.move MessageType.l2Event 1640995200000 "payload1"

def demoEnvL2 : SplitEnv :=
  SplitEnv.mk (fun _ => some demoL2Msg) (fun _ _ _ => some "XBTUSD")
    (fun _ _ _ _ => Except.ok [demoParsedTrade]) (fun _ _ _ => Except.error ())
    (fun _ _ => some "BTC/USD") (fun _ => 9)

/-- Witness for C1 (amended) at concrete inputs: the `L2Event` line under
the blocked market appends nothing to any parsed sink, and stage 2 deletes
the parsed bucket files of a blocked-market run. -/
theorem c1_blocked_market_parsed_witness :
    (is_blocked_market demoCfgMove.market_type = true ∧
        demoEnvL2.parseMessage "y" = some demoL2Msg ∧
        demoL2Msg.msg_type = MessageType.l2Event ∧
        split_line demoEnvL2 demoCfgMove emptySplitState (some "y") =
          Except.ok
            (SplitState.mk [9] [("XBTUSD", Output.mk ["y"] [])] 0 1) ∧
        (∀ t, parsedRecords
            (SplitState.mk [9] [("XBTUSD", Output.mk ["y"] [])] 0 1) t =
          parsedRecords emptySplitState t)) ∧
      (is_blocked_market MarketType.move = true ∧
        stage2_paths MarketType.move ["raw0"] ["parsed0"] =
          (["raw0"], ["parsed0"])) := by
  have hstep : split_line demoEnvL2 demoCfgMove emptySplitState (some "y") =
      Except.ok (SplitState.mk [9] [("XBTUSD", Output.mk ["y"] [])] 0 1) := by rfl
  refine ⟨⟨by decide, by rfl, by decide, hstep, ?_⟩,
    by decide, c1_blocked_market_parsed.2 MarketType.move ["raw0"] ["parsed0"] (by decide)⟩
  exact c1_blocked_market_parsed.1 demoEnvL2 demoCfgMove emptySplitState "y"
    demoL2Msg (SplitState.mk [9] [("XBTUSD", Output.mk ["y"] [])] 0 1)
    (by decide) (by rfl) (by decide) hstep

/-! ## Claim C5 -/

/-- C5: the day filter.  For every non-panicking split step on a line that
deserializes to `msg`: each sink grows only by a suffix; a raw sink gains a
line only if `get_day(received_at / 1000)` equals day `D` (and then exactly
the original line); a parsed sink gains only records whose
`get_day(timestamp / 1000)` equals `D`; and a line that reaches the
emission path (new payload, symbol extracted) never increments
`error_lines`, however the day filters decide — out-of-day records are
dropped silently. -/
theorem c5_day_filter (env : SplitEnv) (cfg : SplitCfg) (st : SplitState)
    (line : String) (msg : Message) (st' : SplitState)
    (hparse : env.parseMessage line = some msg)
    (h : split_line env cfg st (some line) = Except.ok st') :
    (∀ t, ∃ newRaw newParsed,
      rawLines st' t = rawLines st t ++ newRaw ∧
        parsedRecords st' t = parsedRecords st t ++ newParsed ∧
        (newRaw ≠ [] →
          cfg.day = get_day (Int.ofNat (msg.received_at / 1000)) ∧
            newRaw = [line]) ∧
        (∀ m ∈ newParsed, get_day (m.timestamp.tdiv 1000) = cfg.day)) ∧
      (env.hashJson msg.json ∉ st.visited →
        (∃ symbol,
          env.extract_symbol cfg.exchange cfg.market_type msg.json = some symbol) →
        st'.error_lines = st.error_lines) := by
  rcases split_line_cases env cfg st line msg st' hparse h with
    ⟨hdup, -, hf, he, -⟩ | ⟨-, hex, -, hf, -, -⟩ |
    ⟨sym, ms, hdup, hex, -, he, -, -, -, hraw, hparsed⟩
  · refine ⟨?_, fun hnot _ => absurd hdup hnot⟩
    intro t
    refine ⟨[], [], ?_, ?_, fun hc => absurd rfl hc, fun m hm => absurd hm (by simp)⟩
    · unfold rawLines
      rw [hf, List.append_nil]
    · unfold parsedRecords
      rw [hf, List.append_nil]
  · refine ⟨?_, fun _ hsome => by
      obtain ⟨symbol, hsym⟩ := hsome
      rw [hex] at hsym
      exact absurd hsym (by simp)⟩
    intro t
    refine ⟨[], [], ?_, ?_, fun hc => absurd rfl hc, fun m hm => absurd hm (by simp)⟩
    · unfold rawLines
      rw [hf, List.append_nil]
    · unfold parsedRecords
      rw [hf, List.append_nil]
  · refine ⟨?_, fun _ _ => he⟩
    intro t
    refine ⟨(if t = sym ∧ cfg.day = get_day (Int.ofNat (msg.received_at / 1000))
        then [line] else []),
      (if t = sym then
        ms.filter (fun m => decide (get_day (m.timestamp.tdiv 1000) = cfg.day))
      else []), hraw t, hparsed t, ?_, ?_⟩
    · intro hne
      by_cases hc : t = sym ∧ cfg.day = get_day (Int.ofNat (msg.received_at / 1000))
      · rw [if_pos hc]
        exact ⟨hc.2, rfl⟩
      · rw [if_neg hc] at hne
        exact absurd rfl hne
    · intro m hm
      by_cases h2 : t = sym
      · rw [if_pos h2] at hm
        simpa using (List.mem_filter.mp hm).2
      · rw [if_neg h2] at hm
        exact absurd hm (by simp)

/-- Witness for C5 at a concrete input: the trade line of the concrete run
above, whose `received_at` and parsed timestamp both fall on 2022-01-01. -/
theorem c5_day_filter_witness :
    demoEnvTrade.parseMessage "x" = some demoTradeMsg ∧
      split_line demoEnvTrade demoCfgMove emptySplitState (some "x") =
        Except.ok
          (SplitState.mk [7] [("XBTUSD", Output.mk ["x"] [demoParsedTrade])] 0 1) ∧
      ((∀ t, ∃ newRaw newParsed,
        rawLines
            (SplitState.mk [7] [("XBTUSD", Output.mk ["x"] [demoParsedTrade])] 0 1)
            t =
          rawLines emptySplitState t ++ newRaw ∧
          parsedRecords
              (SplitState.mk [7]
                [("XBTUSD", Output.mk ["x"] [demoParsedTrade])] 0 1) t =
            parsedRecords emptySplitState t ++ newParsed ∧
          (newRaw ≠ [] →
            demoCfgMove.day =
                get_day (Int.ofNat (demoTradeMsg.received_at / 1000)) ∧
              newRaw = ["x"]) ∧
          (∀ m ∈ newParsed,
            get_day (m.timestamp.tdiv 1000) = demoCfgMove.day)) ∧
        (demoEnvTrade.hashJson demoTradeMsg.json ∉ emptySplitState.visited →
          (∃ symbol,
            demoEnvTrade.extract_symbol demoCfgMove.exchange
                demoCfgMove.market_type demoTradeMsg.json = some symbol) →
          (SplitState.mk [7]
              [("XBTUSD", Output.mk ["x"] [demoParsedTrade])] 0 1).error_lines =
            emptySplitState.error_lines)) :=
  ⟨by rfl, by rfl,
    c5_day_filter demoEnvTrade demoCfgMove emptySplitState "x" demoTradeMsg
      (SplitState.mk [7] [("XBTUSD", Output.mk ["x"] [demoParsedTrade])] 0 1)
      (by rfl) (by rfl)⟩

/-! ## Claim C9 -/

/-- C9 (amended): when `normalize_pair` fails at first sight of a symbol,
the split worker does not merely skip that symbol's sink creation: the
`unwrap()` at source line 158 panics, so the step aborts and the remaining
lines of that input file are never processed (the other files' workers are
unaffected). -/
theorem c9_normalize_pair_panic (env : SplitEnv) (cfg : SplitCfg)
    (st : SplitState) (line : String) (msg : Message) (symbol : String)
    (hparse : env.parseMessage line = some msg)
    (hdup : env.hashJson msg.json ∉ st.visited)
    (hex : env.extract_symbol cfg.exchange cfg.market_type msg.json = some symbol)
    (habs : lookupSink st.split_files symbol = none)
    (hnp : env.normalize_pair symbol cfg.exchange = none) :
    split_line env cfg st (some line) = Except.error unwrap_none_msg ∧
      ∀ rest, split_file env cfg st (some line :: rest) =
        Except.error unwrap_none_msg := by
  have hsink : ensureSink env cfg
      { st with visited := env.hashJson msg.json :: st.visited,
                total_lines := st.total_lines + 1 } symbol =
      Except.error unwrap_none_msg := by
    unfold ensureSink
    rw [show lookupSink
        ({ st with visited := env.hashJson msg.json :: st.visited,
                   total_lines := st.total_lines + 1 } : SplitState).split_files
        symbol = none from habs]
    simp only [Option.isNone_none, if_true, hnp]
  have hstep : split_line env cfg st (some line) = Except.error unwrap_none_msg := by
    unfold split_line
    simp only [hparse]
    rw [if_neg hdup]
    simp only [hex, hsink]
  refine ⟨hstep, ?_⟩
  intro rest
  unfold split_file
  rw [hstep]

/-- An environment whose `normalize_pair` always fails; each line carries
its own text as payload and symbol, hashed by length. -/
def demoEnvNoPair : SplitEnv :=
  SplitEnv.mk
    (fun s =>
      some (Message.mk "bitmex" MarketType.spot MessageType.trade 1640995200000 s))
    (fun _ _ j => some j) (fun _ _ _ _ => Except.error ())
    (fun _ _ _ => Except.ok []) (fun _ _ => none) (fun s => s.length)

def demoCfgSpot : SplitCfg := SplitCfg.mk "bitmex" MarketType.spot demoDay

/-- Counterexample to C9 as stated: with `normalize_pair` failing on the
first line's symbol, processing does not continue with the remaining lines
and symbols — the whole worker aborts, so the two-line file run ends in the
unwrap panic and the second line (symbol `bb`) is never processed. -/
theorem c9_normalize_pair_aborts_file :
    demoEnvNoPair.normalize_pair "a" demoCfgSpot.exchange = none ∧
      split_file demoEnvNoPair demoCfgSpot emptySplitState
          [some "a", some "bb"] =
        Except.error unwrap_none_msg :=
  ⟨by rfl, by rfl⟩

/-- Witness for C9 (amended) at concrete inputs. -/
theorem c9_normalize_pair_panic_witness :
    demoEnvNoPair.parseMessage "a" =
        some (Message.mk "bitmex" MarketType.spot MessageType.trade
          1640995200000 "a") ∧
      demoEnvNoPair.normalize_pair "a" demoCfgSpot.exchange = none ∧
      split_line demoEnvNoPair demoCfgSpot emptySplitState (some "a") =
        Except.error unwrap_none_msg ∧
      split_file demoEnvNoPair demoCfgSpot emptySplitState
          [some "a", some "bb"] =
        Except.error unwrap_none_msg := by
  have hmain := c9_normalize_pair_panic demoEnvNoPair demoCfgSpot
    emptySplitState "a"
    (Message.mk "bitmex" MarketType.spot MessageType.trade 1640995200000 "a")
    "a" (by rfl) (by decide) (by rfl) (by rfl) (by rfl)
  exact ⟨by rfl, by rfl, hmain.1, hmain.2 [some "bb"]⟩

/-- Witness for C4 at a concrete input: with the payload hash 7 already in
the dedup set, the duplicate trade line is dropped silently (sinks, dedup
set and error tally unchanged; only `total_lines` advances) and the hash
stays in the set. -/
theorem c4_dedup_drops_duplicates_witness :
    (demoEnvTrade.parseMessage "x" = some demoTradeMsg ∧
        demoEnvTrade.hashJson demoTradeMsg.json ∈
          (SplitState.mk [7] [] 0 0).visited ∧
        split_line demoEnvTrade demoCfgMove (SplitState.mk [7] [] 0 0)
            (some "x") =
          Except.ok (SplitState.mk [7] [] 0 1) ∧
        ((SplitState.mk [7] [] 0 1).split_files =
            (SplitState.mk [7] [] 0 0).split_files ∧
          (SplitState.mk [7] [] 0 1).error_lines =
            (SplitState.mk [7] [] 0 0).error_lines ∧
          (SplitState.mk [7] [] 0 1).visited =
            (SplitState.mk [7] [] 0 0).visited)) ∧
      7 ∈ (SplitState.mk [7] [] 0 1).visited := by
  have hstep : split_line demoEnvTrade demoCfgMove (SplitState.mk [7] [] 0 0)
      (some "x") = Except.ok (SplitState.mk [7] [] 0 1) := by rfl
  refine ⟨⟨by rfl, by decide, hstep,
    c4_dedup_drops_duplicates.2 demoEnvTrade demoCfgMove
      (SplitState.mk [7] [] 0 0) "x" demoTradeMsg
      (SplitState.mk [7] [] 0 1) (by rfl) (by decide) hstep⟩,
    c4_dedup_drops_duplicates.1 demoEnvTrade demoCfgMove
      (SplitState.mk [7] [] 0 0) (some "x")
      (SplitState.mk [7] [] 0 1) hstep 7 (by decide)⟩
